import Mathlib

/-!
Verification of the spread remote-execution client (`spread/client.go`).

Go byte slices are modelled as `List Char` (the program only manipulates
ASCII bytes in the fragments verified here), Go `string` as Lean `String`,
`time.Duration` (an `int64` count of nanoseconds) as `Int`, and fallible
results as `Option`.  Each definition is a direct translation of the
corresponding Go function; the source line numbers are cited in the doc
comments.
-/

set_option maxRecDepth 20000

namespace Spread

/-- Go `unicode.IsSpace` restricted to ASCII, as used by `bytes.TrimSpace`
on the ASCII byte strings handled by the client. -/
def isSpaceChar (c : Char) : Bool :=
  c == ' ' || c == '\t' || c == '\n' || c == '\x0b' || c == '\x0c' || c == '\r'

/-- Model of Go `bytes.TrimSpace`: drop whitespace from both ends. -/
def trimSpace (l : List Char) : List Char :=
  ((l.dropWhile isSpaceChar).reverse.dropWhile isSpaceChar).reverse

/-- Model of Go `bytes.Split(b, []byte{'\n'})`: all subslices separated by
newlines.  On empty input Go returns one empty subslice. -/
def splitNl : List Char → List (List Char)
  | [] => [[]]
  | c :: rest =>
      if c = '\n' then [] :: splitNl rest
      else
        match splitNl rest with
        | [] => [[c]]
        | l :: ls => (c :: l) :: ls

theorem splitNl_ne_nil (l : List Char) : splitNl l ≠ [] := by
  induction l with
  | nil => simp [splitNl]
  | cons c rest ih =>
      simp only [splitNl]
      split
      · simp
      · cases h : splitNl rest with
        | nil => simp
        | cons a as => simp

theorem splitNl_append_nl (a b : List Char) :
    splitNl (a ++ '\n' :: b) = splitNl a ++ splitNl b := by
  induction a with
  | nil => simp [splitNl]
  | cons c rest ih =>
      by_cases hc : c = '\n'
      · subst hc
        simp [splitNl, ih]
      · show splitNl (c :: (rest ++ '\n' :: b)) = splitNl (c :: rest) ++ splitNl b
        rw [splitNl, splitNl, if_neg hc, if_neg hc, ih]
        cases h : splitNl rest with
        | nil => exact absurd h (splitNl_ne_nil rest)
        | cons l ls => simp

theorem splitNl_no_nl (a : List Char) (h : '\n' ∉ a) : splitNl a = [a] := by
  induction a with
  | nil => simp [splitNl]
  | cons c rest ih =>
      simp only [List.mem_cons, not_or] at h
      simp [splitNl, h.1, ih h.2, Ne.symm h.1]

/-- The literal `(...)` marker (client.go 796). -/
def unchangedMarker : List Char := "(...)".toList

/-- The backward scan of `safeBuffer.Since` (client.go 804-810):
`for i := offset - 1; i > 1; i--`, looking for a newline byte; called
with the start index `offset - 1`.  Note the loop condition `i > 1`:
indices 0 and 1 are never examined. -/
def sinceScan (data : List Char) : Nat → Option Nat
  | 0 => none
  | 1 => none
  | (i + 2) =>
      if data.getD (i + 2) ' ' = '\n' then some (i + 2)
      else sinceScan data (i + 1)

/-- Model of `safeBuffer.Since` (client.go 798-815): the returned view and
the new offset (the buffer length). -/
def safeBufferSince (data : List Char) (offset : Nat) : List Char × Nat :=
  match sinceScan data (offset - 1) with
  | some i => (trimSpace (unchangedMarker ++ data.drop i), data.length)
  | none => (trimSpace data, data.length)

/-- The scan described by claim C2's words (for comparison with the code):
the last newline at any index `≤ offset - 1`, including indices 0 and 1. -/
def sinceClaimScan (data : List Char) : Nat → Option Nat
  | 0 => if data.getD 0 ' ' = '\n' then some 0 else none
  | (i + 1) =>
      if data.getD (i + 1) ' ' = '\n' then some (i + 1)
      else sinceClaimScan data i

/-- The view described by claim C2's words (for comparison with the code). -/
def sinceClaimView (data : List Char) (offset : Nat) : List Char :=
  if offset = 0 then trimSpace data
  else
    match sinceClaimScan data (offset - 1) with
    | some i => trimSpace (unchangedMarker ++ data.drop i)
    | none => trimSpace data

theorem sinceScan_some (data : List Char) :
    ∀ i k, sinceScan data i = some k →
      2 ≤ k ∧ k ≤ i ∧ data.getD k ' ' = '\n' ∧
        ∀ j, k < j → j ≤ i → data.getD j ' ' ≠ '\n' := by
  intro i
  induction i with
  | zero => intro k h; simp [sinceScan] at h
  | succ n ih =>
      intro k h
      match n, h with
      | 0, h => simp [sinceScan] at h
      | (m + 1), h =>
          rw [sinceScan] at h
          split at h
          · rename_i hnl
            cases h
            refine ⟨by omega, le_refl _, hnl, ?_⟩
            intro j hj hj'
            omega
          · rename_i hnl
            obtain ⟨h2, hle, hnl', hrest⟩ := ih k h
            refine ⟨h2, by omega, hnl', ?_⟩
            intro j hj hj'
            rcases Nat.lt_or_ge j (m + 2) with hlt | hge
            · exact hrest j hj (by omega)
            · have : j = m + 2 := by omega
              subst this
              exact hnl

theorem sinceScan_none (data : List Char) :
    ∀ i, sinceScan data i = none →
      ∀ j, 2 ≤ j → j ≤ i → data.getD j ' ' ≠ '\n' := by
  intro i
  induction i with
  | zero => intro _ j h2 hle; omega
  | succ n ih =>
      intro h j h2 hle
      match n, h, hle with
      | 0, h, hle => omega
      | (m + 1), h, hle =>
          rw [sinceScan] at h
          split at h
          · exact absurd h (by simp)
          · rename_i hnl
            rcases Nat.lt_or_ge j (m + 2) with hlt | hge
            · exact ih h j h2 (by omega)
            · have : j = m + 2 := by omega
              subst this
              exact hnl

/-- C2 counterexample: on buffer `"a\nb"` with `offset = 2` the code's scan
(`i > 1`) never sees the newline at index 1 and returns the whole buffer,
while the claim's view would prepend `(...)` from that newline. -/
theorem since_scan_low_index_counterexample :
    (safeBufferSince ("a\nb".toList) 2).1 ≠ sinceClaimView ("a\nb".toList) 2 := by
  decide

/-- C2 (amended): for `offset ≤ Len`, `Since(offset)` returns the buffer
length as the new offset, and the view is the trimmed tail from the last
newline at an index `i` with `2 ≤ i ≤ offset - 1` with `(...)` prepended —
the scan never examines indices 0 and 1 — or the trimmed whole buffer when
no newline lies in that range. -/
theorem safeBuffer_since_amended (data : List Char) (offset : Nat)
    (hoff : offset ≤ data.length) :
    (safeBufferSince data offset).2 = data.length ∧
      ((∃ i, 2 ≤ i ∧ i + 1 ≤ offset ∧ data.getD i ' ' = '\n' ∧
          (∀ j, i < j → j + 1 ≤ offset → data.getD j ' ' ≠ '\n') ∧
          (safeBufferSince data offset).1 =
            trimSpace (unchangedMarker ++ data.drop i)) ∨
        ((∀ j, 2 ≤ j → j + 1 ≤ offset → data.getD j ' ' ≠ '\n') ∧
          (safeBufferSince data offset).1 = trimSpace data)) := by
  constructor
  · unfold safeBufferSince
    cases h : sinceScan data (offset - 1) <;> simp
  · cases h : sinceScan data (offset - 1) with
    | none =>
        right
        refine ⟨?_, ?_⟩
        · intro j h2 hj
          exact sinceScan_none data (offset - 1) h j h2 (by omega)
        · unfold safeBufferSince
          rw [h]
    | some i =>
        left
        obtain ⟨h2, hle, hnl, hrest⟩ := sinceScan_some data (offset - 1) i h
        refine ⟨i, h2, by omega, hnl, ?_, ?_⟩
        · intro j hj hj'
          exact hrest j hj (by omega)
        · unfold safeBufferSince
          rw [h]

/-- Witness for `safeBuffer_since_amended` at buffer `"ab\ncd"`, offset 4. -/
theorem safeBuffer_since_amended_witness :
    (safeBufferSince ("ab\ncd".toList) 4).2 = ("ab\ncd".toList).length ∧
      ((∃ i, 2 ≤ i ∧ i + 1 ≤ 4 ∧ ("ab\ncd".toList).getD i ' ' = '\n' ∧
          (∀ j, i < j → j + 1 ≤ 4 → ("ab\ncd".toList).getD j ' ' ≠ '\n') ∧
          (safeBufferSince ("ab\ncd".toList) 4).1 =
            trimSpace (unchangedMarker ++ ("ab\ncd".toList).drop i)) ∨
        ((∀ j, 2 ≤ j → j + 1 ≤ 4 → ("ab\ncd".toList).getD j ' ' ≠ '\n') ∧
          (safeBufferSince ("ab\ncd".toList) 4).1 = trimSpace ("ab\ncd".toList))) :=
  safeBuffer_since_amended ("ab\ncd".toList) 4 (by decide)

/-! ## Warn-tick report composition (client.go 583-597 and 712-722) -/

/-- Composition of the warning report from the two `Since` views, translated
from client.go 590-596: the stderr view is used alone when the stdout view
is empty or `bytes.HasPrefix(errput, output)` holds (that is, the stdout
view is a prefix of the stderr view); otherwise, when the stderr view is
non-empty, the two views are joined by a blank line. -/
def warnCompose (output errput : List Char) : List Char :=
  if output = [] ∨ output.isPrefixOf errput then errput
  else if errput ≠ [] then output ++ '\n' :: '\n' :: errput
  else output

/-- The composition described by claim C3's words (for comparison): stderr
alone when the stdout view is empty or the stderr view is a prefix of the
stdout view. -/
def warnComposeClaim (output errput : List Char) : List Char :=
  if output = [] ∨ errput.isPrefixOf output then errput
  else if errput ≠ [] then output ++ '\n' :: '\n' :: errput
  else output

/-- One warn tick when both sinks are safe buffers (client.go 583-597):
take the `Since` views of both buffers and compose the report; returns
the report and the two updated offsets. -/
def warnTick (outBuf errBuf : List Char) (lastOut lastErr : Nat) :
    List Char × Nat × Nat :=
  let vo := safeBufferSince outBuf lastOut
  let ve := safeBufferSince errBuf lastErr
  (warnCompose vo.1 ve.1, vo.2, ve.2)

/-- C3 counterexample: with stdout view `"ab"` and stderr view `"a"`, the
stderr view is a prefix of the stdout view, so the claim predicts the report
`"a"`; the code checks the opposite direction and emits `"ab\n\na"`. -/
theorem warn_report_direction_counterexample :
    (warnTick ("ab".toList) ("a".toList) 0 0).1 ≠
      warnComposeClaim (safeBufferSince ("ab".toList) 0).1
        (safeBufferSince ("a".toList) 0).1 := by
  decide

/-- C3 (amended): on a warn tick with both sinks safe buffers, the report is
stderr's Since-view alone whenever stdout's view is empty or stdout's view
is a prefix of stderr's view; otherwise, when stderr's view is non-empty,
the report is stdout's view, a blank line, then stderr's view; otherwise it
is stdout's view alone. -/
theorem warn_report_amended (outBuf errBuf : List Char) (lastOut lastErr : Nat) :
    (((safeBufferSince outBuf lastOut).1 = [] ∨
        (safeBufferSince outBuf lastOut).1.isPrefixOf
          (safeBufferSince errBuf lastErr).1 = true) →
      (warnTick outBuf errBuf lastOut lastErr).1 = (safeBufferSince errBuf lastErr).1) ∧
    ((safeBufferSince outBuf lastOut).1 ≠ [] →
      (safeBufferSince outBuf lastOut).1.isPrefixOf
        (safeBufferSince errBuf lastErr).1 = false →
      (safeBufferSince errBuf lastErr).1 ≠ [] →
      (warnTick outBuf errBuf lastOut lastErr).1 =
        (safeBufferSince outBuf lastOut).1 ++
          '\n' :: '\n' :: (safeBufferSince errBuf lastErr).1) ∧
    ((safeBufferSince outBuf lastOut).1 ≠ [] →
      (safeBufferSince outBuf lastOut).1.isPrefixOf
        (safeBufferSince errBuf lastErr).1 = false →
      (safeBufferSince errBuf lastErr).1 = [] →
      (warnTick outBuf errBuf lastOut lastErr).1 =
        (safeBufferSince outBuf lastOut).1) := by
  refine ⟨?_, ?_, ?_⟩
  · intro h
    unfold warnTick warnCompose
    simp only []
    rw [if_pos]
    rcases h with h | h
    · exact Or.inl h
    · exact Or.inr h
  · intro h1 h2 h3
    unfold warnTick warnCompose
    simp only []
    rw [if_neg, if_pos h3]
    rintro (h | h)
    · exact h1 h
    · rw [h2] at h; exact Bool.false_ne_true h
  · intro h1 h2 h3
    unfold warnTick warnCompose
    simp only []
    rw [if_neg, if_neg]
    · simpa using h3
    · rintro (h | h)
      · exact h1 h
      · rw [h2] at h; exact Bool.false_ne_true h

/-- Witness for `warn_report_amended`: stdout view `"ab"`, stderr view
`"abc"` (stdout a prefix of stderr), report is stderr's view alone. -/
theorem warn_report_amended_witness :
    ((safeBufferSince ("ab".toList) 0).1 = [] ∨
      (safeBufferSince ("ab".toList) 0).1.isPrefixOf
        (safeBufferSince ("abc".toList) 0).1 = true) ∧
    (warnTick ("ab".toList) ("abc".toList) 0 0).1 =
      (safeBufferSince ("abc".toList) 0).1 :=
  ⟨Or.inr (by decide),
    (warn_report_amended ("ab".toList) ("abc".toList) 0 0).1 (Or.inr (by decide))⟩

/-! ## Timeout controller (client.go 114-140, 547-551, 678-692) -/

/-- One second in nanoseconds; Go `time.Duration` is an `int64` count of
nanoseconds, modelled as `Int`. -/
def secondNs : Int := 1000000000

/-- `defaultWarnTimeout = 5 * time.Minute` (client.go 548). -/
def defaultWarnTimeout : Int := 5 * 60 * secondNs

/-- `defaultKillTimeout = 15 * time.Minute` (client.go 549). -/
def defaultKillTimeout : Int := 15 * 60 * secondNs

/-- `maxTimeout = 365 * 24 * time.Hour` (client.go 550). -/
def maxTimeout : Int := 365 * 24 * 60 * 60 * secondNs

/-- The sentinel mapping shared by both setters and runScript: 0 becomes the
given default and -1 becomes `maxTimeout`. -/
def normTimeoutArg (t dflt : Int) : Int :=
  if t = 0 then dflt else if t = -1 then maxTimeout else t

/-- The warn/kill pair held by a `Client`. -/
structure Timeouts where
  warnTimeout : Int
  killTimeout : Int
  deriving DecidableEq

/-- `Client.SetWarnTimeout` (client.go 114-126).  Go's `%` on integers is
truncated remainder, `Int.tmod`. -/
def setWarnTimeout (timeout : Int) (c : Timeouts) : Timeouts :=
  let w := normTimeoutArg timeout defaultWarnTimeout
  let k := if Int.tmod c.killTimeout w = 0 then c.killTimeout - secondNs
           else c.killTimeout
  ⟨w, k⟩

/-- `Client.SetKillTimeout` (client.go 128-140). -/
def setKillTimeout (timeout : Int) (c : Timeouts) : Timeouts :=
  let k0 := normTimeoutArg timeout defaultKillTimeout
  let k := if Int.tmod k0 c.warnTimeout = 0 then k0 - secondNs else k0
  ⟨c.warnTimeout, k⟩

/-- The inline normalization in `runScript` (client.go 678-692). -/
def runScriptNormalize (warnTimeout killTimeout : Int) : Int × Int :=
  let w := normTimeoutArg warnTimeout defaultWarnTimeout
  let k0 := normTimeoutArg killTimeout defaultKillTimeout
  let k := if Int.tmod k0 w = 0 then k0 - secondNs else k0
  (w, k)

/-- C5 counterexample: `SetWarnTimeout(500 ms)` leaves `warnTimeout` at
half a second — the setters never clamp, so the claimed invariant
`warnTimeout ≥ 1 s` does not hold after an arbitrary setter call. -/
theorem timeout_invariant_counterexample :
    (setWarnTimeout 500000000 ⟨defaultWarnTimeout, defaultKillTimeout⟩).warnTimeout
      < secondNs := by
  decide

/-- C5 (amended): after `SetWarnTimeout(w)` followed by `SetKillTimeout(k)`
from any prior state, provided `w` is 0, -1 or at least one second and `k`
is 0, -1 or strictly more than one second, the pair satisfies
`warnTimeout ≥ 1 s`, `killTimeout > 0`, and `killTimeout` is its normalized
value decreased by exactly one second precisely when that value was an
exact multiple of `warnTimeout`; `runScript`'s inline normalization yields
the same pair. -/
theorem timeout_normalization_amended (w k : Int) (c : Timeouts)
    (hw : w = 0 ∨ w = -1 ∨ secondNs ≤ w)
    (hk : k = 0 ∨ k = -1 ∨ secondNs < k) :
    secondNs ≤ (setKillTimeout k (setWarnTimeout w c)).warnTimeout ∧
    0 < (setKillTimeout k (setWarnTimeout w c)).killTimeout ∧
    (setKillTimeout k (setWarnTimeout w c)).killTimeout =
      (if Int.tmod (normTimeoutArg k defaultKillTimeout)
            (setKillTimeout k (setWarnTimeout w c)).warnTimeout = 0
       then normTimeoutArg k defaultKillTimeout - secondNs
       else normTimeoutArg k defaultKillTimeout) ∧
    runScriptNormalize w k =
      ((setKillTimeout k (setWarnTimeout w c)).warnTimeout,
        (setKillTimeout k (setWarnTimeout w c)).killTimeout) := by
  have hwge : secondNs ≤ normTimeoutArg w defaultWarnTimeout := by
    rcases hw with h | h | h <;>
      simp only [normTimeoutArg, h, if_pos, if_neg, if_true, if_false] <;>
      first
        | decide
        | (split <;> first | decide | (split <;> first | decide | omega) | omega)
  have hkgt : secondNs < normTimeoutArg k defaultKillTimeout := by
    rcases hk with h | h | h <;>
      simp only [normTimeoutArg, h] <;>
      first
        | decide
        | (split <;> first | decide | (split <;> first | decide | omega) | omega)
  refine ⟨?_, ?_, ?_, ?_⟩
  · simpa [setKillTimeout, setWarnTimeout] using hwge
  · have hs : (0 : Int) < secondNs := by decide
    simp only [setKillTimeout, setWarnTimeout]
    split
    · omega
    · omega
  · simp [setKillTimeout, setWarnTimeout]
  · simp [setKillTimeout, setWarnTimeout, runScriptNormalize]

/-- Witness for `timeout_normalization_amended` at the default-requesting
arguments `w = 0`, `k = 0` (the pair `Dial` installs). -/
theorem timeout_normalization_amended_witness :
    secondNs ≤ (setKillTimeout 0 (setWarnTimeout 0 ⟨1, 1⟩)).warnTimeout ∧
    0 < (setKillTimeout 0 (setWarnTimeout 0 ⟨1, 1⟩)).killTimeout ∧
    (setKillTimeout 0 (setWarnTimeout 0 ⟨1, 1⟩)).killTimeout =
      (if Int.tmod (normTimeoutArg 0 defaultKillTimeout)
            (setKillTimeout 0 (setWarnTimeout 0 ⟨1, 1⟩)).warnTimeout = 0
       then normTimeoutArg 0 defaultKillTimeout - secondNs
       else normTimeoutArg 0 defaultKillTimeout) ∧
    runScriptNormalize 0 0 =
      ((setKillTimeout 0 (setWarnTimeout 0 ⟨1, 1⟩)).warnTimeout,
        (setKillTimeout 0 (setWarnTimeout 0 ⟨1, 1⟩)).killTimeout) :=
  timeout_normalization_amended 0 0 ⟨1, 1⟩ (Or.inl rfl) (Or.inl rfl)

/-! ## Command supervisor (client.go 553-608 remote, 694-731 local) -/

/-- Errors flowing through the executors.  `exitError` models both
`ssh.ExitError` and `exec.ExitError` (an exit with the given status);
`rebootError` is the sentinel of client.go 234-238; `fatalError` models
the `FatalError` wrapper raised on the `<FATAL ...>` sentinel. -/
inductive RunError where
  | exitError (status : Int)
  | rebootError (key : List Char)
  | killTimeoutError
  | fatalError (msg : List Char)
  | otherError (msg : List Char)
  deriving DecidableEq

/-- The bytes written into a sink when the kill deadline fires
(client.go 580 and 710). -/
def killMarker : List Char := "\n<kill-timeout reached>".toList

/-- Timer and completion events the supervisor's `select` can observe, in
the order they fire. -/
inductive SupEvent where
  | done (err : Option RunError)
  | warn
  | kill
  deriving DecidableEq

/-- State of `runCommand`'s loop: the two optional safe-buffer sinks (a
`none` sink is a nil or non-safeBuffer writer) and the two Since offsets. -/
structure RemoteSupState where
  stdoutBuf : Option (List Char)
  stderrBuf : Option (List Char)
  lastOut : Nat
  lastErr : Nat
  deriving DecidableEq

/-- The kill branch's sink write (client.go 575-581): prefer the stdout
sink, fall back to stderr, write nothing when both are absent. -/
def remoteKillWrite (s : RemoteSupState) : RemoteSupState :=
  match s.stdoutBuf with
  | some b => { s with stdoutBuf := some (b ++ killMarker) }
  | none =>
      match s.stderrBuf with
      | some b => { s with stderrBuf := some (b ++ killMarker) }
      | none => s

/-- The warn branch's offset updates (client.go 584-589): `Since` on each
sink that is a safe buffer. -/
def remoteWarnUpdate (s : RemoteSupState) : RemoteSupState :=
  let lo := match s.stdoutBuf with
            | some b => (safeBufferSince b s.lastOut).2
            | none => s.lastOut
  let le := match s.stderrBuf with
            | some b => (safeBufferSince b s.lastErr).2
            | none => s.lastErr
  { s with lastOut := lo, lastErr := le }

/-- The `select` loop of `runCommand` (client.go 569-606) driven by a list
of events.  The result is `(returned error, final state, SIGKILL sent)`;
`none` means no event ended the loop.  A completion returns the command's
error; the kill deadline signals SIGKILL, writes the marker and returns a
kill-timeout error at once, without consuming further events. -/
def runCommandLoop : List SupEvent → RemoteSupState →
    Option (Option RunError × RemoteSupState × Bool)
  | [], _ => none
  | SupEvent.done e :: _, s => some (e, s, false)
  | SupEvent.kill :: _, s =>
      some (some RunError.killTimeoutError, remoteKillWrite s, true)
  | SupEvent.warn :: rest, s => runCommandLoop rest (remoteWarnUpdate s)

/-- State of `runScript`'s loop: both sinks are always safe buffers; the
flag records whether `cmd.Process.Kill` was called. -/
structure LocalSupState where
  outbuf : List Char
  errbuf : List Char
  lastOut : Nat
  lastErr : Nat
  killed : Bool
  deriving DecidableEq

/-- The kill branch's sink write in `runScript` (client.go 705-710): the
marker goes to the stderr buffer whenever it is non-empty, otherwise to the
stdout buffer; the process is killed. -/
def localKillWrite (s : LocalSupState) : LocalSupState :=
  if s.errbuf.length > 0 then
    { s with errbuf := s.errbuf ++ killMarker, killed := true }
  else
    { s with outbuf := s.outbuf ++ killMarker, killed := true }

/-- The warn branch's offset updates in `runScript` (client.go 713-715). -/
def localWarnUpdate (s : LocalSupState) : LocalSupState :=
  { s with lastOut := (safeBufferSince s.outbuf s.lastOut).2,
           lastErr := (safeBufferSince s.errbuf s.lastErr).2 }

/-- The `select` loop of `runScript` (client.go 699-731).  The third
argument is the current value of the `err` variable.  The kill branch has
no `break Loop`: it records a kill-timeout error and keeps looping; only a
completion event breaks, and its result overwrites the recorded error. -/
def runScriptLoop : List SupEvent → LocalSupState → Option RunError →
    Option (Option RunError × LocalSupState)
  | [], _, _ => none
  | SupEvent.done e :: _, s, _ => some (e, s)
  | SupEvent.kill :: rest, s, _ =>
      runScriptLoop rest (localKillWrite s) (some RunError.killTimeoutError)
  | SupEvent.warn :: rest, s, acc => runScriptLoop rest (localWarnUpdate s) acc

/-- C4 counterexample: in the local executor with a non-empty stderr buffer,
the kill deadline fires and then the killed process completes with exit
status 137.  The returned error is the completion error, not the
kill-timeout error the claim promises, and the marker was appended to the
stderr buffer although the stdout sink was available. -/
theorem local_kill_timeout_counterexample :
    (runScriptLoop [SupEvent.kill, SupEvent.done (some (RunError.exitError 137))]
        ⟨[], "x".toList, 0, 0, false⟩ none).map Prod.fst ≠
      some (some RunError.killTimeoutError) ∧
    (runScriptLoop [SupEvent.kill, SupEvent.done (some (RunError.exitError 137))]
        ⟨[], "x".toList, 0, 0, false⟩ none).map (fun r => r.2.outbuf) =
      some [] := by
  constructor
  · decide
  · decide

/-- C4 (amended): when the kill deadline fires first, the remote supervisor
sends SIGKILL, appends `\n<kill-timeout reached>` preferring the stdout
sink over the stderr sink, and returns a kill-timeout error immediately,
consuming no further events; the local `runScript` kills the process,
appends the marker to the stderr buffer when it is non-empty and to the
stdout buffer otherwise, records a kill-timeout error but keeps looping,
and a later completion event's result replaces the recorded error. -/
theorem kill_timeout_amended :
    (∀ evs (out : List Char) (errOpt : Option (List Char)) (lo le : Nat),
      runCommandLoop (SupEvent.kill :: evs) ⟨some out, errOpt, lo, le⟩ =
        some (some RunError.killTimeoutError,
          ⟨some (out ++ killMarker), errOpt, lo, le⟩, true)) ∧
    (∀ evs (err : List Char) (lo le : Nat),
      runCommandLoop (SupEvent.kill :: evs) ⟨none, some err, lo, le⟩ =
        some (some RunError.killTimeoutError,
          ⟨none, some (err ++ killMarker), lo, le⟩, true)) ∧
    (∀ evs (s : LocalSupState) acc, s.errbuf ≠ [] →
      runScriptLoop (SupEvent.kill :: evs) s acc =
        runScriptLoop evs
          { s with errbuf := s.errbuf ++ killMarker, killed := true }
          (some RunError.killTimeoutError)) ∧
    (∀ evs (ob : List Char) (lo le : Nat) (kd : Bool) acc,
      runScriptLoop (SupEvent.kill :: evs) ⟨ob, [], lo, le, kd⟩ acc =
        runScriptLoop evs ⟨ob ++ killMarker, [], lo, le, true⟩
          (some RunError.killTimeoutError)) ∧
    (∀ evs (s : LocalSupState) acc e,
      runScriptLoop (SupEvent.done e :: evs) s acc = some (e, s)) := by
  refine ⟨?_, ?_, ?_, ?_, ?_⟩
  · intro evs out errOpt lo le
    simp [runCommandLoop, remoteKillWrite]
  · intro evs err lo le
    simp [runCommandLoop, remoteKillWrite]
  · intro evs s acc h
    have hpos : s.errbuf.length > 0 := List.length_pos.mpr h
    simp [runScriptLoop, localKillWrite, hpos]
  · intro evs ob lo le kd acc
    simp [runScriptLoop, localKillWrite]
  · intro evs s acc e
    simp [runScriptLoop]

/-- Witness for `kill_timeout_amended`: local state with stderr `"x"`. -/
theorem kill_timeout_amended_witness :
    ("x".toList ≠ ([] : List Char)) ∧
    runScriptLoop [SupEvent.kill] ⟨[], "x".toList, 0, 0, false⟩ none =
      runScriptLoop []
        ⟨[], "x".toList ++ killMarker, 0, 0, true⟩
        (some RunError.killTimeoutError) :=
  ⟨by decide,
    kill_timeout_amended.2.2.1 [] ⟨[], "x".toList, 0, 0, false⟩ none (by decide)⟩

/-! ## Marker recognition (client.go 286, 610) -/

/-- The last newline-delimited line of the trimmed buffer, as computed at
client.go 400 and 741: `bytes.Split(bytes.TrimSpace(b), []byte{'\n'})`,
last element. -/
def lastOutputLine (b : List Char) : List Char :=
  (splitNl (trimSpace b)).getLastD []

/-- Model of `rebootExp = ^<REBOOT(?: (.*))?>$` (client.go 286) applied to
one line: `some key` with the captured group (empty when absent), `none`
when the line does not match.  `.` does not match a newline in Go regexp. -/
def rebootMatch (l : List Char) : Option (List Char) :=
  if l = "<REBOOT>".toList then some []
  else if "<REBOOT ".toList.isPrefixOf l && l.getLast? == some '>' &&
       !((l.drop 8).dropLast.contains '\n') then
    some ((l.drop 8).dropLast)
  else none

/-- Characters matched by `[A-Z_]`. -/
def isUpperUnd (c : Char) : Bool := ('A' ≤ c && c ≤ 'Z') || c == '_'

/-- Model of `commandExp = ^<([A-Z_]+)(?: (.*))?>$` (client.go 610) applied
to one line: `some (name, arg)` with the two captured groups (the second
empty when absent). -/
def commandMatch : List Char → Option (List Char × List Char)
  | '<' :: rest =>
      let name := rest.takeWhile isUpperUnd
      if name = [] then none
      else
        match rest.drop name.length with
        | ['>'] => some (name, [])
        | ' ' :: rest2 =>
            if rest2.getLast? == some '>' && !(rest2.dropLast.contains '\n') then
              some (name, rest2.dropLast)
            else none
        | _ => none
  | _ => none

/-! ## Environment and the reboot loop (client.go 240-284) -/

/-- Modelled from the spec: the `Environment` type is implemented outside
this file's source (`client.go` only calls `Keys`, `Get` and `Set`); per
the spec it is an ordered mapping from shell-identifier keys to string
values that preserves insertion order via `Keys()`.  `Set` replaces the
value of an existing key in place and appends a new key at the end. -/
structure Environment where
  pairs : List (String × String)
  deriving DecidableEq

/-- `Environment.Get`: value of the key, empty string when absent. -/
def envGet (e : Environment) (k : String) : String :=
  match e.pairs.find? (fun p => p.1 == k) with
  | some p => p.2
  | none => ""

/-- `Environment.Keys`: the keys in insertion order. -/
def envKeys (e : Environment) : List String := e.pairs.map Prod.fst

/-- `Environment.Set`: replace in place or append. -/
def envSet (e : Environment) (k v : String) : Environment :=
  if e.pairs.any (fun p => p.1 == k) then
    ⟨e.pairs.map (fun p => if p.1 = k then (k, v) else p)⟩
  else ⟨e.pairs ++ [(k, v)]⟩

theorem find_set_hit (l : List (String × String)) (k v : String)
    (h : ∃ p ∈ l, p.1 = k) :
    (l.map (fun p => if p.1 = k then (k, v) else p)).find? (fun p => p.1 == k)
      = some (k, v) := by
  induction l with
  | nil => simp at h
  | cons q rest ih =>
      by_cases hq : q.1 = k
      · simp only [List.map_cons, if_pos hq]
        rw [List.find?_cons_of_pos _ (by simp)]
      · obtain ⟨p, hp, hpk⟩ := h
        rcases List.mem_cons.mp hp with rfl | hp'
        · exact absurd hpk hq
        · simp only [List.map_cons, if_neg hq]
          rw [List.find?_cons_of_neg _ (by simpa using hq)]
          exact ih ⟨p, hp', hpk⟩

theorem find_append_miss (l : List (String × String)) (k v : String)
    (h : ∀ p ∈ l, p.1 ≠ k) :
    (l ++ [(k, v)]).find? (fun p => p.1 == k) = some (k, v) := by
  induction l with
  | nil => simp [List.find?]
  | cons q rest ih =>
      rw [List.cons_append,
        List.find?_cons_of_neg _ (by simpa using h q (List.mem_cons_self q rest))]
      exact ih (fun p hp => h p (List.mem_cons_of_mem q hp))

theorem find_set_ne (l : List (String × String)) (k k' v : String)
    (h : k' ≠ k) :
    (l.map (fun p => if p.1 = k then (k, v) else p)).find? (fun p => p.1 == k')
      = l.find? (fun p => p.1 == k') := by
  induction l with
  | nil => simp
  | cons q rest ih =>
      by_cases hq : q.1 = k
      · have hq1 : ¬ (q.1 == k') = true := by
          rw [hq]
          simpa using (Ne.symm h)
        have hr : List.find? (fun p => p.1 == k') (q :: rest)
            = List.find? (fun p => p.1 == k') rest :=
          List.find?_cons_of_neg rest hq1
        simp only [List.map_cons, if_pos hq]
        rw [List.find?_cons_of_neg _ (by simpa using (Ne.symm h)), hr]
        exact ih
      · simp only [List.map_cons, if_neg hq]
        by_cases hq' : q.1 = k'
        · rw [List.find?_cons_of_pos _ (by simpa using hq'),
            List.find?_cons_of_pos _ (by simpa using hq')]
        · rw [List.find?_cons_of_neg _ (by simpa using hq'),
            List.find?_cons_of_neg _ (by simpa using hq')]
          exact ih

theorem find_append_ne (l : List (String × String)) (k k' v : String)
    (h : k' ≠ k) :
    (l ++ [(k, v)]).find? (fun p => p.1 == k')
      = l.find? (fun p => p.1 == k') := by
  induction l with
  | nil =>
      simp only [List.nil_append]
      rw [List.find?_cons_of_neg _ (by simpa using (Ne.symm h))]
  | cons q rest ih =>
      by_cases hq' : q.1 = k'
      · rw [List.cons_append, List.find?_cons_of_pos _ (by simpa using hq'),
          List.find?_cons_of_pos _ (by simpa using hq')]
      · rw [List.cons_append, List.find?_cons_of_neg _ (by simpa using hq'),
          List.find?_cons_of_neg _ (by simpa using hq')]
        exact ih

theorem envGet_envSet (e : Environment) (k v : String) :
    envGet (envSet e k v) k = v := by
  unfold envGet envSet
  by_cases hany : (e.pairs.any fun p => p.1 == k) = true
  · rw [if_pos hany]
    obtain ⟨p, hp, hpk⟩ := List.any_eq_true.mp hany
    have : (e.pairs.map (fun p => if p.1 = k then (k, v) else p)).find?
        (fun p => p.1 == k) = some (k, v) :=
      find_set_hit e.pairs k v ⟨p, hp, by simpa using hpk⟩
    simp only []
    rw [this]
  · rw [if_neg hany]
    have hall : ∀ p ∈ e.pairs, p.1 ≠ k := by
      intro p hp hc
      exact hany (List.any_eq_true.mpr ⟨p, hp, by simpa using hc⟩)
    simp only []
    rw [find_append_miss e.pairs k v hall]

theorem envGet_envSet_ne (e : Environment) (k k' v : String) (h : k' ≠ k) :
    envGet (envSet e k v) k' = envGet e k' := by
  unfold envGet envSet
  by_cases hany : (e.pairs.any fun p => p.1 == k) = true
  · rw [if_pos hany]
    simp only []
    rw [find_set_ne e.pairs k k' v h]
  · rw [if_neg hany]
    simp only []
    rw [find_append_ne e.pairs k k' v h]

theorem envKeys_envSet (e : Environment) (k v : String) :
    envKeys (envSet e k v) = envKeys e ∨
      envKeys (envSet e k v) = envKeys e ++ [k] := by
  unfold envKeys envSet
  split
  · left
    simp only [List.map_map]
    apply List.map_congr_left
    intro p _
    by_cases hp : p.1 = k
    · simp [hp]
    · simp [hp]
  · right
    simp

theorem mem_envKeys_envSet (e : Environment) (k v : String) :
    k ∈ envKeys (envSet e k v) := by
  unfold envKeys envSet
  split
  · rename_i h
    obtain ⟨p, hp, hpk⟩ := List.any_eq_true.mp h
    have hpk' : p.1 = k := by simpa using hpk
    refine List.mem_map.mpr ⟨(k, v), ?_, rfl⟩
    refine List.mem_map.mpr ⟨p, hp, ?_⟩
    simp [hpk']
  · simp

/-- `maxReboots = 10` (client.go 240). -/
def maxReboots : Nat := 10

/-- The reboot-limit guard `reboot > maxReboots` (client.go 257). -/
def rebootLimitExceeded (reboot : Nat) : Bool := decide (reboot > maxReboots)

/-- The error message built at client.go 258:
`fmt.Errorf("%s rebooted more than %d times", c.server)` names two verbs
but passes a single operand, so Go's fmt renders the second verb as the
missing-argument marker `%!d(MISSING)`. -/
def maxRebootsMessage (server : String) : String :=
  server ++ " rebooted more than %!d(MISSING) times"

/-- Substring test over char lists. -/
def containsSub (needle : List Char) : List Char → Bool
  | [] => needle.isPrefixOf []
  | c :: rest => needle.isPrefixOf (c :: rest) || containsSub needle rest

/-- C8: once the reboot counter exceeds `maxReboots` (= 10) the loop
returns an error whose message carries the server identity, but the missing
`%d` operand means the message never states the limit 10 — it contains the
Go missing-argument marker instead.  This contradicts the spec (and the
spec's own design note flags the line as a bug). -/
theorem maxReboots_message_bug :
    rebootLimitExceeded 11 = true ∧
    containsSub ("srv".toList) ((maxRebootsMessage "srv").toList) = true ∧
    containsSub ("%!d(MISSING)".toList) ((maxRebootsMessage "srv").toList) = true ∧
    containsSub ("10".toList) ((maxRebootsMessage "srv").toList) = false ∧
    containsSub ((toString maxReboots).toList) ((maxRebootsMessage "srv").toList)
      = false := by
  refine ⟨by decide, by decide, by decide, by decide, by decide⟩

/-- Head of one iteration of the reboot loop (client.go 247-251): when the
current reboot key is empty it becomes the attempt counter's string, and
`SPREAD_REBOOT` is set to the resulting key. -/
def runLoopSetReboot (env : Environment) (attempt : Nat) (rebootKey : String) :
    Environment × String :=
  let key := if rebootKey = "" then toString attempt else rebootKey
  (envSet env "SPREAD_REBOOT" key, key)

/-- The environment mutations `run` performs over a whole call: one
`Set("SPREAD_REBOOT", ...)` per attempt (client.go 251). -/
def runEnvFold (env : Environment) (vals : List String) : Environment :=
  vals.foldl (fun e v => envSet e "SPREAD_REBOOT" v) env

/-- C9 counterexample: `run` on an environment without `SPREAD_REBOOT`
appends that key on the first attempt, so the caller's key list changes. -/
theorem env_readonly_counterexample :
    envKeys (runLoopSetReboot ⟨[("A", "1")]⟩ 0 "").1 ≠
      envKeys (⟨[("A", "1")]⟩ : Environment) := by
  decide

theorem envKeys_fold_stable (vals : List String) :
    ∀ (e : Environment), "SPREAD_REBOOT" ∈ envKeys e →
      envKeys (runEnvFold e vals) = envKeys e := by
  induction vals with
  | nil => intro e _; rfl
  | cons v rest ih =>
      intro e hmem
      show envKeys (runEnvFold (envSet e "SPREAD_REBOOT" v) rest) = envKeys e
      have hmem' : "SPREAD_REBOOT" ∈ envKeys (envSet e "SPREAD_REBOOT" v) :=
        mem_envKeys_envSet e "SPREAD_REBOOT" v
      rw [ih _ hmem']
      rcases envKeys_envSet e "SPREAD_REBOOT" v with h | h
      · exact h
      · exfalso
        unfold envKeys at hmem
        unfold envKeys envSet at h
        split at h
        · rename_i hany
          simp only [List.map_map] at h
          have hfst : List.map
              (Prod.fst ∘ fun p => if p.1 = "SPREAD_REBOOT"
                then ("SPREAD_REBOOT", v) else p) e.pairs =
              List.map Prod.fst e.pairs := by
            apply List.map_congr_left
            intro p _
            by_cases hp : p.1 = "SPREAD_REBOOT" <;> simp [Function.comp, hp]
          rw [hfst] at h
          have := congrArg List.length h
          simp at this
        · rename_i hany
          apply hany
          obtain ⟨p, hp, hpk⟩ := List.mem_map.mp hmem
          exact List.any_eq_true.mpr ⟨p, hp, by simpa using hpk⟩

/-- C9 (amended): from the executor's perspective the caller's environment
is read-only except for the key `SPREAD_REBOOT`, which `run` sets on every
attempt: after any sequence of attempts, every other key retains its value,
and the key order is unchanged apart from `SPREAD_REBOOT` possibly being
appended once at the end. -/
theorem env_readonly_amended (env : Environment) (vals : List String)
    (k : String) (hk : k ≠ "SPREAD_REBOOT") :
    envGet (runEnvFold env vals) k = envGet env k ∧
      (envKeys (runEnvFold env vals) = envKeys env ∨
        envKeys (runEnvFold env vals) = envKeys env ++ ["SPREAD_REBOOT"]) := by
  constructor
  · induction vals generalizing env with
    | nil => rfl
    | cons v rest ih =>
        show envGet (runEnvFold (envSet env "SPREAD_REBOOT" v) rest) k = _
        rw [ih (envSet env "SPREAD_REBOOT" v)]
        exact envGet_envSet_ne env "SPREAD_REBOOT" k v hk
  · cases vals with
    | nil => left; rfl
    | cons v rest =>
        show envKeys (runEnvFold (envSet env "SPREAD_REBOOT" v) rest) = envKeys env ∨
          envKeys (runEnvFold (envSet env "SPREAD_REBOOT" v) rest) =
            envKeys env ++ ["SPREAD_REBOOT"]
        rw [envKeys_fold_stable rest _ (mem_envKeys_envSet env "SPREAD_REBOOT" v)]
        exact envKeys_envSet env "SPREAD_REBOOT" v

/-- Witness for `env_readonly_amended`: key `"A"` survives two attempts. -/
theorem env_readonly_amended_witness :
    envGet (runEnvFold ⟨[("A", "1")]⟩ ["0", "tok"]) "A" =
      envGet (⟨[("A", "1")]⟩ : Environment) "A" ∧
      (envKeys (runEnvFold ⟨[("A", "1")]⟩ ["0", "tok"]) =
          envKeys (⟨[("A", "1")]⟩ : Environment) ∨
        envKeys (runEnvFold ⟨[("A", "1")]⟩ ["0", "tok"]) =
          envKeys (⟨[("A", "1")]⟩ : Environment) ++ ["SPREAD_REBOOT"]) :=
  env_readonly_amended ⟨[("A", "1")]⟩ ["0", "tok"] "A" (by decide)

/-! ## Executor pipelines (client.go 288-425 remote, 615-760 local) -/

/-- The output-mode constants (client.go 205-210). -/
def traceOutput : Nat := 0

def combinedOutput : Nat := 1

def splitOutput : Nat := 2

def shellOutput : Nat := 3

/-- The benign prefix stripped from captured output (client.go 414). -/
def errmsgBytes : List Char :=
  "mesg: ttyname failed: Inappropriate ioctl for device".toList

/-- Model of Go `bytes.TrimPrefix`. -/
def trimPrefixBytes (l p : List Char) : List Char :=
  if p.isPrefixOf l then l.drop p.length else l

/-- Model of `outputErr` (client.go 824-834): decorate an error with the
trimmed output; multi-line output is wrapped in `-----` fences. -/
def outputErr (output : List Char) (err : RunError) : RunError :=
  let o := trimSpace output
  if o = [] then err
  else if o.contains '\n' then
    RunError.otherError ("\n-----\n".toList ++ o ++ "\n-----".toList)
  else RunError.otherError o

/-- Post-processing of `runPart` once the command has finished
(client.go 399-424): the reboot-sentinel check on exit status 213, the
mode-dependent choice of stdout or stderr, the benign-prefix strip and
trim, accumulation onto `previous`, and error decoration. -/
def runPartPost (mode : Nat) (previous stdoutB stderrB : List Char)
    (err : Option RunError) : List Char × Option RunError :=
  let rebootRes : Option (List Char × Option RunError) :=
    match err with
    | some (RunError.exitError s) =>
        if s = 213 then
          match rebootMatch (lastOutputLine stdoutB) with
          | some key => some (previous ++ stdoutB, some (RunError.rebootError key))
          | none => none
        else none
    | _ => none
  match rebootRes with
  | some r => r
  | none =>
      let output := if err = none ∨ mode ≠ splitOutput then stdoutB else stderrB
      let output := trimSpace (trimPrefixBytes output errmsgBytes)
      let output := previous ++ output
      match err with
      | some e => ([], some (outputErr output e))
      | none => (output, none)

/-- Outcome of one `runPart` call: whether an SSH session was opened and
the returned output and error. -/
structure PartOutcome where
  sessionOpened : Bool
  output : List Char
  err : Option RunError
  deriving DecidableEq

/-- `runPart` (client.go 288-425): the empty-script early return happens
before any session is opened; otherwise the remote command's observable
result `(stdoutB, stderrB, err)` is post-processed by `runPartPost`. -/
def runPartModel (script : String) (mode : Nat) (previous : List Char)
    (stdoutB stderrB : List Char) (err : Option RunError) : PartOutcome :=
  if trimSpace script.toList = [] then ⟨false, [], none⟩
  else
    let r := runPartPost mode previous stdoutB stderrB err
    ⟨true, r.1, r.2⟩

/-- Model of `exitStatus` (client.go 762-775): nil is 0, an exit error
reports its status, any other error is 1. -/
def exitStatusOf : Option RunError → Int
  | none => 0
  | some (RunError.exitError n) => n
  | some _ => 1

/-- Post-processing of `runScript` once the process has finished
(client.go 740-759): the `ERROR`/`FATAL` sentinel check on exit status
213, then error decoration preferring the stderr buffer. -/
def runScriptPost (outbuf errbuf : List Char) (err : Option RunError) :
    Option (List Char) × Option (List Char) × Option RunError :=
  let sentinel :
      Option (Option (List Char) × Option (List Char) × Option RunError) :=
    if exitStatusOf err = 213 then
      match commandMatch (lastOutputLine outbuf) with
      | some (name, arg) =>
          if name = "ERROR".toList then
            some (none, none, some (RunError.otherError arg))
          else if name = "FATAL".toList then
            some (none, none, some (RunError.fatalError arg))
          else none
      | none => none
    else none
  match sentinel with
  | some r => r
  | none =>
      match err with
      | some e =>
          let e' := if errbuf ≠ [] then outputErr errbuf e
                    else if outbuf ≠ [] then outputErr outbuf e
                    else e
          (none, none, some e')
      | none => (some outbuf, some errbuf, none)

/-- Outcome of one `runScript` call: whether a local process was spawned
and the returned stdout, stderr and error. -/
structure ScriptOutcome where
  processStarted : Bool
  stdout : Option (List Char)
  stderr : Option (List Char)
  err : Option RunError
  deriving DecidableEq

/-- `runScript` (client.go 615-760): the empty-script early return happens
before `/bin/bash` is spawned; otherwise the process's observable result
`(outbuf, errbuf, err)` is post-processed by `runScriptPost`. -/
def runScriptModel (mode : Nat) (script dir : String) (env : Environment)
    (warn kill : Int) (outbuf errbuf : List Char) (err : Option RunError) :
    ScriptOutcome :=
  if trimSpace script.toList = [] then ⟨false, none, none, none⟩
  else
    let r := runScriptPost outbuf errbuf err
    ⟨true, r.1, r.2.1, r.2.2⟩

/-- C10: a script that trims to nothing makes both executors return nil
output and nil error at once — no SSH session is opened and no local
process is spawned — whatever the mode, directory, environment, timeouts
and (hypothetical) command results are. -/
theorem empty_script_no_spawn (script : String)
    (mode : Nat) (previous stdoutB stderrB : List Char) (err : Option RunError)
    (mode2 : Nat) (dir : String) (env : Environment) (warn kill : Int)
    (outbuf errbuf : List Char) (err2 : Option RunError)
    (h : trimSpace script.toList = []) :
    runPartModel script mode previous stdoutB stderrB err = ⟨false, [], none⟩ ∧
    runScriptModel mode2 script dir env warn kill outbuf errbuf err2 =
      ⟨false, none, none, none⟩ := by
  constructor
  · unfold runPartModel
    rw [if_pos h]
  · unfold runScriptModel
    rw [if_pos h]

/-- Witness for `empty_script_no_spawn` on the whitespace script `"  \n\t "`. -/
theorem empty_script_no_spawn_witness :
    runPartModel "  \n\t " combinedOutput [] ("x".toList) [] none =
        ⟨false, [], none⟩ ∧
    runScriptModel combinedOutput "  \n\t " "" ⟨[]⟩ 0 0 ("x".toList) [] none =
        ⟨false, none, none, none⟩ :=
  empty_script_no_spawn "  \n\t " combinedOutput [] ("x".toList) [] none
    combinedOutput "" ⟨[]⟩ 0 0 ("x".toList) [] none (by decide)

/-- C1: on exit status 213 with a trailing `<REBOOT ...>` stdout line,
`runPart` returns the accumulated previous output concatenated with the
current stdout together with the reboot sentinel carrying the captured
key, and the next iteration of the reboot loop sets `SPREAD_REBOOT` to
exactly that key — substituting the attempt counter's string when the key
is empty. -/
theorem runPart_reboot_roundtrip (mode : Nat)
    (previous stdoutB stderrB : List Char) (key : List Char)
    (env : Environment) (attempt : Nat)
    (h : rebootMatch (lastOutputLine stdoutB) = some key) :
    runPartPost mode previous stdoutB stderrB (some (RunError.exitError 213))
        = (previous ++ stdoutB, some (RunError.rebootError key)) ∧
    envGet (runLoopSetReboot env (attempt + 1) (String.mk key)).1 "SPREAD_REBOOT"
        = (if String.mk key = "" then toString (attempt + 1) else String.mk key) := by
  constructor
  · simp [runPartPost, h]
  · unfold runLoopSetReboot
    simp only []
    exact envGet_envSet env "SPREAD_REBOOT" _

/-- Witness for `runPart_reboot_roundtrip`: stdout `"before\n<REBOOT abc>\n"`
yields key `"abc"`, output `"p\n" ++ stdout`, and `SPREAD_REBOOT = "abc"`
on the next attempt. -/
theorem runPart_reboot_roundtrip_witness :
    runPartPost combinedOutput ("p\n".toList) ("before\n<REBOOT abc>\n".toList)
        [] (some (RunError.exitError 213))
      = (("p\n".toList) ++ ("before\n<REBOOT abc>\n".toList),
          some (RunError.rebootError ("abc".toList))) ∧
    envGet (runLoopSetReboot ⟨[("A", "1")]⟩ 1 (String.mk ("abc".toList))).1
        "SPREAD_REBOOT"
      = (if String.mk ("abc".toList) = "" then toString 1
         else String.mk ("abc".toList)) :=
  runPart_reboot_roundtrip combinedOutput ("p\n".toList)
    ("before\n<REBOOT abc>\n".toList) [] ("abc".toList) ⟨[("A", "1")]⟩ 0
    (by decide)

/-- Modelled from the spec: the observable behaviour of `/bin/bash`
executing the assembled script for the user script `FATAL oops` (bash is
not part of this repository's source): the assembled `FATAL` marker
function prints `<FATAL oops>` on stdout and exits with status 213, so the
process result is `(stdout "<FATAL oops>\n", stderr "", exit 213)`. -/
def fatalOopsOutbuf : List Char := "<FATAL oops>\n".toList

/-- Modelled from the spec: the exit side of the `FATAL oops` run. -/
def fatalOopsErr : Option RunError := some (RunError.exitError 213)

/-- C7: in the local executor, exit status 213 with a trailing command
marker means an `ERROR` name yields an ordinary error carrying the
captured message and a `FATAL` name yields the fatal wrapper; in
particular `runScript(combined, "FATAL oops", "", env, 0, 0)` returns a
fatal error with message `"oops"`. -/
theorem runScript_sentinel_errors :
    (∀ (outbuf errbuf : List Char) (err : Option RunError) (arg : List Char),
      exitStatusOf err = 213 →
      commandMatch (lastOutputLine outbuf) = some ("ERROR".toList, arg) →
      runScriptPost outbuf errbuf err =
        (none, none, some (RunError.otherError arg))) ∧
    (∀ (outbuf errbuf : List Char) (err : Option RunError) (arg : List Char),
      exitStatusOf err = 213 →
      commandMatch (lastOutputLine outbuf) = some ("FATAL".toList, arg) →
      runScriptPost outbuf errbuf err =
        (none, none, some (RunError.fatalError arg))) ∧
    runScriptModel combinedOutput "FATAL oops" "" ⟨[("A", "1")]⟩ 0 0
        fatalOopsOutbuf [] fatalOopsErr =
      ⟨true, none, none, some (RunError.fatalError ("oops".toList))⟩ := by
  refine ⟨?_, ?_, ?_⟩
  · intro outbuf errbuf err arg h213 hm
    unfold runScriptPost
    rw [if_pos h213, hm]
    simp
  · intro outbuf errbuf err arg h213 hm
    unfold runScriptPost
    rw [if_pos h213, hm]
    simp
  · decide

/-- Witness for `runScript_sentinel_errors`: an `ERROR boom` run. -/
theorem runScript_sentinel_errors_witness :
    runScriptPost ("<ERROR boom>\n".toList) [] (some (RunError.exitError 213)) =
      (none, none, some (RunError.otherError ("boom".toList))) :=
  runScript_sentinel_errors.1 ("<ERROR boom>\n".toList) []
    (some (RunError.exitError 213)) ("boom".toList) (by decide) (by decide)

/-! ## Script assembly (client.go 300-330 remote, 620-645 local) -/

/-- The `REBOOT` marker function line (client.go 304), without its newline. -/
def rebootLine : List Char :=
  "REBOOT() \x7b \x7b set +xu; \x7d 2> /dev/null; [ -z \"$1\" ] && echo \x27<REBOOT>\x27 || echo \"<REBOOT $1>\"; exit 213; \x7d".toList

/-- The `ADDRESS` marker function line (client.go 623). -/
def addressLine : List Char :=
  "ADDRESS() \x7b \x7b set +xu; \x7d 2> /dev/null; [ -z \"$1\" ] && echo \x27<ADDRESS>\x27 || echo \"<ADDRESS $1>\"; \x7d".toList

/-- The `FATAL` marker function line (client.go 624). -/
def fatalLine : List Char :=
  "FATAL() \x7b \x7b set +xu; \x7d 2> /dev/null; [ -z \"$1\" ] && echo \x27<FATAL>\x27 || echo \"<FATAL $@>\"; exit 213; \x7d".toList

/-- The `ERROR` marker function line (client.go 625). -/
def errorLine : List Char :=
  "ERROR() \x7b \x7b set +xu; \x7d 2> /dev/null; [ -z \"$1\" ] && echo \x27<ERROR>\x27 || echo \"<ERROR $@>\"; exit 213; \x7d".toList

/-- The fixed export of `DEBIAN_FRONTEND` (client.go 305 and 626). -/
def debianFrontendLine : List Char := "export DEBIAN_FRONTEND=noninteractive".toList

/-- The fixed export of `DEBIAN_PRIORITY` (client.go 306 and 627). -/
def debianPriorityLine : List Char := "export DEBIAN_PRIORITY=critical".toList

/-- The `set -x` line emitted in trace mode (client.go 321 and 640). -/
def setXLine : List Char := "set -x".toList

/-- One export statement of the env loop (client.go 308-315 and 629-636),
without its newline: the value is emitted raw when it is empty or starts
with a double or single quote, and double-quoted otherwise. -/
def exportLine (k v : String) : List Char :=
  if v.toList = [] || v.toList.head? == some '"' || v.toList.head? == some '\x27'
  then "export ".toList ++ k.toList ++ '=' :: v.toList
  else "export ".toList ++ k.toList ++ '=' :: '"' :: (v.toList ++ ['"'])

/-- The whole env loop: one newline-terminated export statement per pair,
in iteration order. -/
def exportsBlock : List (String × String) → List Char
  | [] => []
  | p :: rest => (exportLine p.1 p.2 ++ ['\n']) ++ exportsBlock rest

/-- The optional `cd` chunk (client.go 301-303). -/
def dirSection (dir : String) : List Char :=
  if dir = "" then [] else ("cd \"".toList ++ dir.toList ++ ['"']) ++ ['\n']

/-- The `PS1` bashrc line (client.go 317), without its newline. -/
def ps1Line (v : String) : List Char :=
  "echo PS1=\\\x27\x27".toList ++ v.toList ++ "\x27\\\x27 > /root/.bashrc".toList

/-- The optional `PS1` chunk (client.go 316-318). -/
def ps1Section (mode : Nat) (env : Environment) : List Char :=
  if mode = shellOutput ∧ envGet env "PS1" ≠ ""
  then ps1Line (envGet env "PS1") ++ ['\n'] else []

/-- The optional `set -x` chunk (client.go 319-322 and 638-641). -/
def traceSection (mode : Nat) : List Char :=
  if mode = traceOutput then setXLine ++ ['\n'] else []

/-- The stdin-protected wrapper `\n(\n<script>\n) < /dev/null\n` around the
trimmed, newline-terminated user script (client.go 329 and 645). -/
def scriptWrap (script : String) : List Char :=
  '\n' :: '(' :: '\n' ::
    ((trimSpace script.toList ++ ['\n']) ++
      ('\n' :: ')' :: (" < /dev/null".toList ++ ['\n'])))

/-- The shell-mode wrapper `\n<script>\n` (client.go 325). -/
def shellWrap (script : String) : List Char :=
  '\n' :: ((trimSpace script.toList ++ ['\n']) ++ ['\n'])

/-- The script assembled by `runScript` (client.go 620-645), as the exact
byte sequence of the successive buffer writes.  The env loop iterates the
environment's pairs, which matches `Keys()`/`Get` iteration when the keys
are unique. -/
def assembleLocal (mode : Nat) (script : String)
    (env : List (String × String)) : List Char :=
  (addressLine ++ ['\n']) ++
    ((fatalLine ++ ['\n']) ++
      ((errorLine ++ ['\n']) ++
        ((debianFrontendLine ++ ['\n']) ++
          ((debianPriorityLine ++ ['\n']) ++
            (exportsBlock env ++ (traceSection mode ++ scriptWrap script))))))

/-- The script assembled by `runPart` (client.go 300-330), as the exact
byte sequence of the successive buffer writes. -/
def assembleRemote (mode : Nat) (script dir : String) (env : Environment) :
    List Char :=
  dirSection dir ++
    ((rebootLine ++ ['\n']) ++
      ((debianFrontendLine ++ ['\n']) ++
        ((debianPriorityLine ++ ['\n']) ++
          (exportsBlock env.pairs ++
            (ps1Section mode env ++
              (traceSection mode ++
                (if mode = shellOutput then shellWrap script
                 else scriptWrap script)))))))

/-- A line carrying the export of key `k`: it starts with `export k=`. -/
def isExportOf (k : String) (line : List Char) : Bool :=
  ("export ".toList ++ k.toList ++ ['=']).isPrefixOf line

/-- A line carrying the export of any of the given keys. -/
def isAnyExport (keys : List String) (line : List Char) : Bool :=
  keys.any fun k => isExportOf k line

theorem isPrefixOf_append_same (p a b : List Char) :
    (p ++ a).isPrefixOf (p ++ b) = a.isPrefixOf b := by
  induction p with
  | nil => rfl
  | cons c cs ih => simp [List.isPrefixOf, ih]

theorem prefix_key_eq (k : List Char) :
    ∀ (k' t : List Char), '=' ∉ k → '=' ∉ k' →
      (k ++ ['=']).isPrefixOf (k' ++ '=' :: t) = true → k = k' := by
  induction k with
  | nil =>
      intro k' t _ hk' h
      cases k' with
      | nil => rfl
      | cons d ds =>
          simp only [List.nil_append, List.cons_append, List.isPrefixOf,
            Bool.and_eq_true, beq_iff_eq] at h
          exfalso
          apply hk'
          rw [h.1]
          exact List.mem_cons_self d ds
  | cons c cs ih =>
      intro k' t hk hk' h
      cases k' with
      | nil =>
          simp only [List.cons_append, List.nil_append, List.isPrefixOf,
            Bool.and_eq_true, beq_iff_eq] at h
          exfalso
          apply hk
          rw [← h.1]
          exact List.mem_cons_self c cs
      | cons d ds =>
          simp only [List.cons_append, List.isPrefixOf, Bool.and_eq_true,
            beq_iff_eq] at h
          have hcs : '=' ∉ cs := fun hm => hk (List.mem_cons_of_mem c hm)
          have hds : '=' ∉ ds := fun hm => hk' (List.mem_cons_of_mem d hm)
          have := ih ds t hcs hds h.2
          rw [h.1, this]

theorem isExportOf_head (k : String) (l : List Char)
    (h : l.take 2 ≠ ['e', 'x']) : isExportOf k l = false := by
  apply Bool.eq_false_iff.mpr
  intro hc
  unfold isExportOf at hc
  have he : "export ".toList ++ k.toList ++ ['='] =
      'e' :: 'x' :: ("port ".toList ++ k.toList ++ ['=']) := rfl
  rw [he] at hc
  match l, h, hc with
  | [], _, hc => simp [List.isPrefixOf] at hc
  | [c], _, hc => simp [List.isPrefixOf] at hc
  | c1 :: c2 :: t, h, hc =>
      simp only [List.isPrefixOf, Bool.and_eq_true, beq_iff_eq] at hc
      obtain ⟨h1, h2, _⟩ := hc
      subst h1
      subst h2
      exact h rfl

theorem isExportOf_export_shape_ne (k k' : String) (rest : List Char)
    (hk : '=' ∉ k.toList) (hk' : '=' ∉ k'.toList) (hne : k ≠ k') :
    isExportOf k ("export ".toList ++ (k'.toList ++ '=' :: rest)) = false := by
  apply Bool.eq_false_iff.mpr
  intro hc
  unfold isExportOf at hc
  rw [List.append_assoc, isPrefixOf_append_same] at hc
  exact hne (String.ext (prefix_key_eq k.toList k'.toList rest hk hk' hc))

theorem isExportOf_exportLine_self (k v : String) :
    isExportOf k (exportLine k v) = true := by
  unfold isExportOf exportLine
  split <;>
    · rw [isPrefixOf_append_same]
      simp [List.isPrefixOf]

theorem isExportOf_exportLine_ne (k k' v : String)
    (hk : '=' ∉ k.toList) (hk' : '=' ∉ k'.toList) (hne : k ≠ k') :
    isExportOf k (exportLine k' v) = false := by
  unfold exportLine
  split
  · rw [show "export ".toList ++ k'.toList ++ '=' :: v.toList =
      "export ".toList ++ (k'.toList ++ '=' :: v.toList) from by
        rw [List.append_assoc]]
    exact isExportOf_export_shape_ne k k' v.toList hk hk' hne
  · rw [show "export ".toList ++ k'.toList ++ '=' :: '"' :: (v.toList ++ ['"']) =
      "export ".toList ++ (k'.toList ++ '=' :: '"' :: (v.toList ++ ['"'])) from by
        rw [List.append_assoc]]
    exact isExportOf_export_shape_ne k k' ('"' :: (v.toList ++ ['"'])) hk hk' hne

theorem splitNl_cons_nl (x : List Char) : splitNl ('\n' :: x) = [] :: splitNl x := by
  simp [splitNl]

theorem splitNl_cons_cons_nl (c : Char) (x : List Char) (h : ¬ c = '\n') :
    splitNl (c :: '\n' :: x) = [c] :: splitNl x := by
  simp [splitNl, h]

theorem chunk_assoc (a b : List Char) : (a ++ ['\n']) ++ b = a ++ '\n' :: b := by
  simp

theorem splitNl_chunk (a b : List Char) (h : '\n' ∉ a) :
    splitNl ((a ++ ['\n']) ++ b) = a :: splitNl b := by
  rw [chunk_assoc, splitNl_append_nl, splitNl_no_nl a h]
  rfl

theorem exportLine_no_nl (k v : String) (hk : '\n' ∉ k.toList)
    (hv : '\n' ∉ v.toList) : '\n' ∉ exportLine k v := by
  have he : '\n' ∉ "export ".toList := by decide
  unfold exportLine
  split
  · intro hm
    rcases List.mem_append.mp hm with hm | hm
    · rcases List.mem_append.mp hm with hm | hm
      · exact he hm
      · exact hk hm
    · rcases List.mem_cons.mp hm with hm | hm
      · exact absurd hm (by decide)
      · exact hv hm
  · intro hm
    rcases List.mem_append.mp hm with hm | hm
    · rcases List.mem_append.mp hm with hm | hm
      · exact he hm
      · exact hk hm
    · rcases List.mem_cons.mp hm with hm | hm
      · exact absurd hm (by decide)
      · rcases List.mem_cons.mp hm with hm | hm
        · exact absurd hm (by decide)
        · rcases List.mem_append.mp hm with hm | hm
          · exact hv hm
          · rcases List.mem_cons.mp hm with hm | hm
            · exact absurd hm (by decide)
            · exact absurd hm (List.not_mem_nil '\n')

theorem splitNl_exportsBlock (env : List (String × String)) (rest : List Char)
    (henv : ∀ p ∈ env, '\n' ∉ p.1.toList ∧ '\n' ∉ p.2.toList) :
    splitNl (exportsBlock env ++ rest) =
      env.map (fun p => exportLine p.1 p.2) ++ splitNl rest := by
  induction env with
  | nil => simp [exportsBlock]
  | cons p l ih =>
      have hp := henv p (List.mem_cons_self p l)
      rw [show exportsBlock (p :: l) ++ rest =
          (exportLine p.1 p.2 ++ ['\n']) ++ (exportsBlock l ++ rest) from by
        rw [show exportsBlock (p :: l) =
          (exportLine p.1 p.2 ++ ['\n']) ++ exportsBlock l from rfl,
          List.append_assoc]]
      rw [splitNl_chunk _ _ (exportLine_no_nl p.1 p.2 hp.1 hp.2)]
      rw [ih (fun q hq => henv q (List.mem_cons_of_mem p hq))]
      rfl

theorem splitNl_traceSection (mode : Nat) (rest : List Char) :
    splitNl (traceSection mode ++ rest) =
      (if mode = traceOutput then [setXLine] else []) ++ splitNl rest := by
  unfold traceSection
  split
  · rw [splitNl_chunk _ _ (by decide)]
    rfl
  · simp

theorem splitNl_dirSection (dir : String) (rest : List Char)
    (h : '\n' ∉ dir.toList) :
    splitNl (dirSection dir ++ rest) =
      (if dir = "" then []
       else ["cd \"".toList ++ dir.toList ++ ['"']]) ++ splitNl rest := by
  unfold dirSection
  split
  · simp
  · rw [splitNl_chunk]
    · rfl
    · intro hm
      rcases List.mem_append.mp hm with hm | hm
      · rcases List.mem_append.mp hm with hm | hm
        · exact absurd hm (by decide)
        · exact h hm
      · rcases List.mem_cons.mp hm with hm | hm
        · exact absurd hm (by decide)
        · exact absurd hm (List.not_mem_nil '\n')

theorem ps1Line_no_nl (v : String) (hv : '\n' ∉ v.toList) :
    '\n' ∉ ps1Line v := by
  unfold ps1Line
  intro hm
  rcases List.mem_append.mp hm with hm | hm
  · rcases List.mem_append.mp hm with hm | hm
    · exact absurd hm (by decide)
    · exact hv hm
  · exact absurd hm (by decide)

theorem splitNl_ps1Section (mode : Nat) (env : Environment) (rest : List Char)
    (h : '\n' ∉ (envGet env "PS1").toList) :
    splitNl (ps1Section mode env ++ rest) =
      (if mode = shellOutput ∧ envGet env "PS1" ≠ ""
       then [ps1Line (envGet env "PS1")] else []) ++ splitNl rest := by
  unfold ps1Section
  split
  · rw [splitNl_chunk _ _ (ps1Line_no_nl _ h)]
    rfl
  · simp

theorem splitNl_scriptWrap (script : String) :
    splitNl (scriptWrap script) =
      [] :: ['('] :: (splitNl (trimSpace script.toList) ++
        [[], ") < /dev/null".toList, []]) := by
  unfold scriptWrap
  rw [splitNl_cons_nl, splitNl_cons_cons_nl '(' _ (by decide), chunk_assoc,
    splitNl_append_nl, splitNl_cons_nl]
  rw [show (')' :: (" < /dev/null".toList ++ ['\n'])) =
    ") < /dev/null".toList ++ '\n' :: [] from rfl]
  rw [splitNl_append_nl, splitNl_no_nl (") < /dev/null".toList) (by decide)]
  rfl

theorem splitNl_shellWrap (script : String) :
    splitNl (shellWrap script) =
      [] :: (splitNl (trimSpace script.toList) ++ [[], []]) := by
  unfold shellWrap
  rw [splitNl_cons_nl, chunk_assoc, splitNl_append_nl, splitNl_cons_nl]
  rfl

/-- The lines of the local prelude below (tail of) the env exports. -/
def localTailLines (mode : Nat) (script : String) : List (List Char) :=
  (if mode = traceOutput then [setXLine] else []) ++
    ([] :: ['('] :: (splitNl (trimSpace script.toList) ++
      [[], ") < /dev/null".toList, []]))

/-- The lines of the remote prelude above the env exports. -/
def remoteHeadLines (dir : String) : List (List Char) :=
  (if dir = "" then [] else ["cd \"".toList ++ dir.toList ++ ['"']]) ++
    [rebootLine, debianFrontendLine, debianPriorityLine]

/-- The lines of the remote prelude below the env exports. -/
def remoteTailLines (mode : Nat) (script : String) (env : Environment) :
    List (List Char) :=
  (if mode = shellOutput ∧ envGet env "PS1" ≠ ""
   then [ps1Line (envGet env "PS1")] else []) ++
    ((if mode = traceOutput then [setXLine] else []) ++
      (if mode = shellOutput then
        [] :: (splitNl (trimSpace script.toList) ++ [[], []])
       else
        [] :: ['('] :: (splitNl (trimSpace script.toList) ++
          [[], ") < /dev/null".toList, []])))

theorem assembleLocal_lines (mode : Nat) (script : String)
    (env : List (String × String))
    (henv : ∀ p ∈ env, '\n' ∉ p.1.toList ∧ '\n' ∉ p.2.toList) :
    splitNl (assembleLocal mode script env) =
      [addressLine, fatalLine, errorLine, debianFrontendLine,
        debianPriorityLine] ++
        (env.map (fun p => exportLine p.1 p.2) ++ localTailLines mode script) := by
  unfold assembleLocal localTailLines
  rw [splitNl_chunk addressLine _ (by decide),
    splitNl_chunk fatalLine _ (by decide),
    splitNl_chunk errorLine _ (by decide),
    splitNl_chunk debianFrontendLine _ (by decide),
    splitNl_chunk debianPriorityLine _ (by decide),
    splitNl_exportsBlock env _ henv,
    splitNl_traceSection, splitNl_scriptWrap]
  rfl

theorem assembleRemote_lines (mode : Nat) (script dir : String)
    (env : Environment)
    (henv : ∀ p ∈ env.pairs, '\n' ∉ p.1.toList ∧ '\n' ∉ p.2.toList)
    (hdir : '\n' ∉ dir.toList) (hps1 : '\n' ∉ (envGet env "PS1").toList) :
    splitNl (assembleRemote mode script dir env) =
      remoteHeadLines dir ++
        (env.pairs.map (fun p => exportLine p.1 p.2) ++
          remoteTailLines mode script env) := by
  unfold assembleRemote remoteHeadLines remoteTailLines
  rw [splitNl_dirSection _ _ hdir, splitNl_chunk rebootLine _ (by decide),
    splitNl_chunk debianFrontendLine _ (by decide),
    splitNl_chunk debianPriorityLine _ (by decide),
    splitNl_exportsBlock env.pairs _ henv, splitNl_ps1Section _ _ _ hps1,
    splitNl_traceSection]
  by_cases hm : mode = shellOutput
  · rw [if_pos hm, if_pos hm, splitNl_shellWrap]
    simp [List.append_assoc]
  · rw [if_neg hm, if_neg hm, splitNl_scriptWrap]
    simp [List.append_assoc]

theorem exports_count_zero : ∀ (env : List (String × String)) (k : String),
    (∀ p ∈ env, '=' ∉ p.1.toList) → '=' ∉ k.toList →
    k ∉ env.map Prod.fst →
    (env.map (fun p => exportLine p.1 p.2)).countP (isExportOf k) = 0 := by
  intro env
  induction env with
  | nil => intro k _ _ _; rfl
  | cons q l ih =>
      intro k hfree hkfree hk
      simp only [List.map_cons, List.mem_cons, not_or] at hk
      rw [List.map_cons, List.countP_cons,
        isExportOf_exportLine_ne k q.1 q.2 hkfree
          (hfree q (List.mem_cons_self q l)) hk.1,
        ih k (fun p hp => hfree p (List.mem_cons_of_mem q hp)) hkfree hk.2]
      simp

theorem exports_count_one : ∀ (env : List (String × String)) (k : String),
    (∀ p ∈ env, '=' ∉ p.1.toList) → '=' ∉ k.toList →
    (env.map Prod.fst).Nodup → k ∈ env.map Prod.fst →
    (env.map (fun p => exportLine p.1 p.2)).countP (isExportOf k) = 1 := by
  intro env
  induction env with
  | nil => intro k _ _ _ hk; simp at hk
  | cons q l ih =>
      intro k hfree hkfree hnodup hk
      rw [List.map_cons] at hnodup hk
      rw [List.map_cons, List.countP_cons]
      rcases List.mem_cons.mp hk with hkq | hkl
      · subst hkq
        rw [exports_count_zero l q.1
            (fun p hp => hfree p (List.mem_cons_of_mem q hp)) hkfree
            (List.nodup_cons.mp hnodup).1,
          isExportOf_exportLine_self q.1 q.2]
        simp
      · have hne : k ≠ q.1 :=
          fun hc => (List.nodup_cons.mp hnodup).1 (hc ▸ hkl)
        rw [isExportOf_exportLine_ne k q.1 q.2 hkfree
            (hfree q (List.mem_cons_self q l)) hne,
          ih k (fun p hp => hfree p (List.mem_cons_of_mem q hp)) hkfree
            (List.nodup_cons.mp hnodup).2 hkl]
        simp

theorem exports_filter_self (env : List (String × String)) :
    (env.map (fun p => exportLine p.1 p.2)).filter
        (isAnyExport (env.map Prod.fst)) =
      env.map (fun p => exportLine p.1 p.2) := by
  apply List.filter_eq_self.mpr
  intro line hline
  obtain ⟨p, hp, hpe⟩ := List.mem_map.mp hline
  subst hpe
  unfold isAnyExport
  exact List.any_eq_true.mpr
    ⟨p.1, List.mem_map.mpr ⟨p, hp, rfl⟩, isExportOf_exportLine_self p.1 p.2⟩

theorem isAnyExport_false (keys : List String) (l : List Char)
    (h : ∀ k0 ∈ keys, isExportOf k0 l = false) : isAnyExport keys l = false := by
  unfold isAnyExport
  cases hA : (keys.any fun k0 => isExportOf k0 l) with
  | false => rfl
  | true =>
      obtain ⟨k0, hk0, hp⟩ := List.any_eq_true.mp hA
      rw [h k0 hk0] at hp
      cases hp

theorem countP_zero_of_false (l : List (List Char)) (p : List Char → Bool)
    (h : ∀ x ∈ l, p x = false) : l.countP p = 0 := by
  apply List.countP_eq_zero.mpr
  intro x hx
  simp [h x hx]

theorem filter_nil_of_false (l : List (List Char)) (p : List Char → Bool)
    (h : ∀ x ∈ l, p x = false) : l.filter p = [] := by
  apply List.filter_eq_nil.mpr
  intro x hx
  simp [h x hx]

/-- Core of C6: in any line list of the shape `pre ++ exports ++ post`
where no line of `pre` or `post` is an export line of any environment key,
each key's export line occurs exactly once, and the export lines in order
are exactly the env loop's output. -/
theorem exports_core (pre post : List (List Char))
    (env : List (String × String)) (k : String)
    (hfree : ∀ p ∈ env, '=' ∉ p.1.toList) (hkfree : '=' ∉ k.toList)
    (hnodup : (env.map Prod.fst).Nodup) (hk : k ∈ env.map Prod.fst)
    (hpre : ∀ l ∈ pre, ∀ k0 ∈ env.map Prod.fst, isExportOf k0 l = false)
    (hpost : ∀ l ∈ post, ∀ k0 ∈ env.map Prod.fst, isExportOf k0 l = false) :
    (pre ++ (env.map (fun p => exportLine p.1 p.2) ++ post)).countP
        (isExportOf k) = 1 ∧
    (pre ++ (env.map (fun p => exportLine p.1 p.2) ++ post)).filter
        (isAnyExport (env.map Prod.fst)) =
      env.map (fun p => exportLine p.1 p.2) := by
  constructor
  · rw [List.countP_append, List.countP_append,
      countP_zero_of_false pre _ (fun l hl => hpre l hl k hk),
      countP_zero_of_false post _ (fun l hl => hpost l hl k hk),
      exports_count_one env k hfree hkfree hnodup hk]
  · rw [List.filter_append, List.filter_append,
      filter_nil_of_false pre _
        (fun l hl => isAnyExport_false _ _ (hpre l hl)),
      filter_nil_of_false post _
        (fun l hl => isAnyExport_false _ _ (hpost l hl)),
      exports_filter_self env]
    simp

theorem envGet_no_nl (env : Environment) (k : String)
    (henv : ∀ p ∈ env.pairs,
      '\n' ∉ p.1.toList ∧ '=' ∉ p.1.toList ∧ '\n' ∉ p.2.toList) :
    '\n' ∉ (envGet env k).toList := by
  unfold envGet
  cases hf : env.pairs.find? (fun p => p.1 == k) with
  | none => decide
  | some p => exact (henv p (List.mem_of_find?_eq_some hf)).2.2

/-- C6 counterexample: with the single-key environment
`DEBIAN_FRONTEND = "x"`, the assembled script contains two lines starting
`export DEBIAN_FRONTEND=` — the fixed prelude export and the env loop's —
so "exactly one line per unique key" fails for an arbitrary environment. -/
theorem export_once_counterexample :
    ¬ ((splitNl (assembleLocal combinedOutput "true"
          [("DEBIAN_FRONTEND", "x")])).countP
        (isExportOf "DEBIAN_FRONTEND") = 1) := by
  decide

/-- C6 (amended): for every environment whose keys are free of `=` and
newlines, are pairwise distinct and avoid the fixed prelude keys
`DEBIAN_FRONTEND` and `DEBIAN_PRIORITY`, whose values are newline-free,
with a newline-free directory and a user script none of whose lines is an
export line of an environment key: both assembled scripts contain exactly
one line starting `export k=` for each key `k`, and the export lines, read
in script order, are exactly the env loop's lines in `Keys()` iteration
order, each raw when the value is empty or starts with a quote and
double-quoted otherwise. -/
theorem export_once_in_order (mode : Nat) (script dir : String)
    (env : Environment) (k : String)
    (henv : ∀ p ∈ env.pairs,
      '\n' ∉ p.1.toList ∧ '=' ∉ p.1.toList ∧ '\n' ∉ p.2.toList)
    (hnodup : (envKeys env).Nodup)
    (hk : k ∈ envKeys env)
    (hdf : "DEBIAN_FRONTEND" ∉ envKeys env)
    (hdp : "DEBIAN_PRIORITY" ∉ envKeys env)
    (hdir : '\n' ∉ dir.toList)
    (hscript : ∀ k0 ∈ envKeys env, ∀ l ∈ splitNl (trimSpace script.toList),
      isExportOf k0 l = false) :
    (splitNl (assembleLocal mode script env.pairs)).countP (isExportOf k) = 1 ∧
    (splitNl (assembleLocal mode script env.pairs)).filter
        (isAnyExport (envKeys env)) =
      env.pairs.map (fun p => exportLine p.1 p.2) ∧
    (splitNl (assembleRemote mode script dir env)).countP (isExportOf k) = 1 ∧
    (splitNl (assembleRemote mode script dir env)).filter
        (isAnyExport (envKeys env)) =
      env.pairs.map (fun p => exportLine p.1 p.2) := by
  unfold envKeys at hnodup hk hdf hdp hscript ⊢
  have henv' : ∀ p ∈ env.pairs, '\n' ∉ p.1.toList ∧ '\n' ∉ p.2.toList :=
    fun p hp => ⟨(henv p hp).1, (henv p hp).2.2⟩
  have hfree : ∀ p ∈ env.pairs, '=' ∉ p.1.toList :=
    fun p hp => (henv p hp).2.1
  have hkeyfree : ∀ k0 ∈ env.pairs.map Prod.fst, '=' ∉ k0.toList := by
    intro k0 hk0
    obtain ⟨p, hp, hpe⟩ := List.mem_map.mp hk0
    exact hpe ▸ hfree p hp
  have hkfree : '=' ∉ k.toList := hkeyfree k hk
  have hDF : ∀ k0 ∈ env.pairs.map Prod.fst,
      isExportOf k0 debianFrontendLine = false := by
    intro k0 hk0
    rw [show debianFrontendLine = "export ".toList ++
      ("DEBIAN_FRONTEND".toList ++ '=' :: "noninteractive".toList) from by decide]
    exact isExportOf_export_shape_ne k0 "DEBIAN_FRONTEND" _
      (hkeyfree k0 hk0) (by decide) (fun hc => hdf (hc ▸ hk0))
  have hDP : ∀ k0 ∈ env.pairs.map Prod.fst,
      isExportOf k0 debianPriorityLine = false := by
    intro k0 hk0
    rw [show debianPriorityLine = "export ".toList ++
      ("DEBIAN_PRIORITY".toList ++ '=' :: "critical".toList) from by decide]
    exact isExportOf_export_shape_ne k0 "DEBIAN_PRIORITY" _
      (hkeyfree k0 hk0) (by decide) (fun hc => hdp (hc ▸ hk0))
  have hpreL : ∀ l ∈ [addressLine, fatalLine, errorLine, debianFrontendLine,
      debianPriorityLine], ∀ k0 ∈ env.pairs.map Prod.fst,
      isExportOf k0 l = false := by
    intro l hl k0 hk0
    rcases List.mem_cons.mp hl with rfl | hl
    · exact isExportOf_head k0 addressLine (by decide)
    rcases List.mem_cons.mp hl with rfl | hl
    · exact isExportOf_head k0 fatalLine (by decide)
    rcases List.mem_cons.mp hl with rfl | hl
    · exact isExportOf_head k0 errorLine (by decide)
    rcases List.mem_cons.mp hl with rfl | hl
    · exact hDF k0 hk0
    rcases List.mem_cons.mp hl with rfl | hl
    · exact hDP k0 hk0
    exact absurd hl (List.not_mem_nil l)
  have hwrapTail : ∀ l ∈ ([] :: ['('] :: (splitNl (trimSpace script.toList) ++
      [[], ") < /dev/null".toList, []])), ∀ k0 ∈ env.pairs.map Prod.fst,
      isExportOf k0 l = false := by
    intro l hl k0 hk0
    rcases List.mem_cons.mp hl with rfl | hl
    · exact isExportOf_head k0 [] (by decide)
    rcases List.mem_cons.mp hl with rfl | hl
    · exact isExportOf_head k0 ['('] (by decide)
    rcases List.mem_append.mp hl with hl | hl
    · exact hscript k0 hk0 l hl
    rcases List.mem_cons.mp hl with rfl | hl
    · exact isExportOf_head k0 [] (by decide)
    rcases List.mem_cons.mp hl with rfl | hl
    · exact isExportOf_head k0 (") < /dev/null".toList) (by decide)
    rcases List.mem_cons.mp hl with rfl | hl
    · exact isExportOf_head k0 [] (by decide)
    exact absurd hl (List.not_mem_nil l)
  have htrace : ∀ l ∈ (if mode = traceOutput then [setXLine] else []),
      ∀ k0 ∈ env.pairs.map Prod.fst, isExportOf k0 l = false := by
    intro l hl k0 hk0
    by_cases hm : mode = traceOutput
    · rw [if_pos hm] at hl
      rcases List.mem_singleton.mp hl with rfl
      exact isExportOf_head k0 setXLine (by decide)
    · rw [if_neg hm] at hl
      exact absurd hl (List.not_mem_nil l)
  have hpostL : ∀ l ∈ localTailLines mode script,
      ∀ k0 ∈ env.pairs.map Prod.fst, isExportOf k0 l = false := by
    intro l hl k0 hk0
    unfold localTailLines at hl
    rcases List.mem_append.mp hl with hl | hl
    · exact htrace l hl k0 hk0
    · exact hwrapTail l hl k0 hk0
  have hpreR : ∀ l ∈ remoteHeadLines dir,
      ∀ k0 ∈ env.pairs.map Prod.fst, isExportOf k0 l = false := by
    intro l hl k0 hk0
    unfold remoteHeadLines at hl
    rcases List.mem_append.mp hl with hl | hl
    · by_cases hd : dir = ""
      · rw [if_pos hd] at hl
        exact absurd hl (List.not_mem_nil l)
      · rw [if_neg hd] at hl
        rcases List.mem_singleton.mp hl with rfl
        have ht : ("cd \"".toList ++ dir.toList ++ ['"']).take 2 = ['c', 'd'] :=
          rfl
        exact isExportOf_head k0 _ (by rw [ht]; decide)
    · rcases List.mem_cons.mp hl with rfl | hl
      · exact isExportOf_head k0 rebootLine (by decide)
      rcases List.mem_cons.mp hl with rfl | hl
      · exact hDF k0 hk0
      rcases List.mem_cons.mp hl with rfl | hl
      · exact hDP k0 hk0
      exact absurd hl (List.not_mem_nil l)
  have hpostR : ∀ l ∈ remoteTailLines mode script env,
      ∀ k0 ∈ env.pairs.map Prod.fst, isExportOf k0 l = false := by
    intro l hl k0 hk0
    unfold remoteTailLines at hl
    rcases List.mem_append.mp hl with hl | hl
    · by_cases hm : mode = shellOutput ∧ envGet env "PS1" ≠ ""
      · rw [if_pos hm] at hl
        rcases List.mem_singleton.mp hl with rfl
        have ht : (ps1Line (envGet env "PS1")).take 2 = ['e', 'c'] := rfl
        exact isExportOf_head k0 _ (by rw [ht]; decide)
      · rw [if_neg hm] at hl
        exact absurd hl (List.not_mem_nil l)
    rcases List.mem_append.mp hl with hl | hl
    · exact htrace l hl k0 hk0
    by_cases hm : mode = shellOutput
    · rw [if_pos hm] at hl
      rcases List.mem_cons.mp hl with rfl | hl
      · exact isExportOf_head k0 [] (by decide)
      rcases List.mem_append.mp hl with hl | hl
      · exact hscript k0 hk0 l hl
      rcases List.mem_cons.mp hl with rfl | hl
      · exact isExportOf_head k0 [] (by decide)
      rcases List.mem_cons.mp hl with rfl | hl
      · exact isExportOf_head k0 [] (by decide)
      exact absurd hl (List.not_mem_nil l)
    · rw [if_neg hm] at hl
      exact hwrapTail l hl k0 hk0
  have hcoreL := exports_core
    [addressLine, fatalLine, errorLine, debianFrontendLine, debianPriorityLine]
    (localTailLines mode script) env.pairs k hfree hkfree hnodup hk hpreL hpostL
  have hcoreR := exports_core (remoteHeadLines dir)
    (remoteTailLines mode script env) env.pairs k hfree hkfree hnodup hk
    hpreR hpostR
  have hps1 : '\n' ∉ (envGet env "PS1").toList := envGet_no_nl env "PS1" henv
  rw [assembleLocal_lines mode script env.pairs henv',
    assembleRemote_lines mode script dir env henv' hdir hps1]
  exact ⟨hcoreL.1, hcoreL.2, hcoreR.1, hcoreR.2⟩

/-- Witness for `export_once_in_order` at the spec's scenario environment
`A = ""`, `B = "\"x\""`, `C = "y z"` with key `C`, script `true`. -/
theorem export_once_in_order_witness :
    (splitNl (assembleLocal combinedOutput "true"
        (⟨[("A", ""), ("B", "\"x\""), ("C", "y z")]⟩ : Environment).pairs)).countP
      (isExportOf "C") = 1 ∧
    (splitNl (assembleLocal combinedOutput "true"
        (⟨[("A", ""), ("B", "\"x\""), ("C", "y z")]⟩ : Environment).pairs)).filter
        (isAnyExport (envKeys ⟨[("A", ""), ("B", "\"x\""), ("C", "y z")]⟩)) =
      (⟨[("A", ""), ("B", "\"x\""), ("C", "y z")]⟩ : Environment).pairs.map
        (fun p => exportLine p.1 p.2) ∧
    (splitNl (assembleRemote combinedOutput "true" "/tmp"
        ⟨[("A", ""), ("B", "\"x\""), ("C", "y z")]⟩)).countP
      (isExportOf "C") = 1 ∧
    (splitNl (assembleRemote combinedOutput "true" "/tmp"
        ⟨[("A", ""), ("B", "\"x\""), ("C", "y z")]⟩)).filter
        (isAnyExport (envKeys ⟨[("A", ""), ("B", "\"x\""), ("C", "y z")]⟩)) =
      (⟨[("A", ""), ("B", "\"x\""), ("C", "y z")]⟩ : Environment).pairs.map
        (fun p => exportLine p.1 p.2) :=
  export_once_in_order combinedOutput "true" "/tmp"
    ⟨[("A", ""), ("B", "\"x\""), ("C", "y z")]⟩ "C"
    (by decide) (by decide) (by decide) (by decide) (by decide) (by decide)
    (by decide)

end Spread
